import Mathlib

/-!
Verification development for the `providers` package of the `bin` tool:
a `generic` HTTP provider (templated version-check URL) and a `gitHub`
provider (GitHub Releases API). Go strings are modelled as Lean `String`
(a wrapper around `List Char`); stateful methods take the receiver
explicitly and return the updated receiver; external collaborators
(HTTP transport, GitHub API client, asset filter) are passed in as
function-valued parameters so theorems quantify over their behaviour.
-/

/- ········································································
   Go standard-library string helpers used by the providers
   ········································································ -/

/-- The whitespace predicate of Go `unicode.IsSpace` (the set trimmed by
`strings.TrimSpace`): ASCII space characters plus the Unicode
White_Space code points. -/
def goIsSpace (c : Char) : Bool :=
  c = ' ' || c = '\t' || c = '\n' || c.val = 11 || c.val = 12 || c = '\r' ||
  c.val = 0x85 || c.val = 0xA0 || c.val = 0x1680 ||
  (0x2000 ≤ c.val && c.val ≤ 0x200A) ||
  c.val = 0x2028 || c.val = 0x2029 || c.val = 0x202F ||
  c.val = 0x205F || c.val = 0x3000

/-- `strings.TrimSpace` on the character list: drop leading and trailing
whitespace, keep everything in between. -/
def trimSpaceL (l : List Char) : List Char :=
  ((l.dropWhile goIsSpace).reverse.dropWhile goIsSpace).reverse

/-- Go `strings.TrimSpace`. -/
def trimSpace (s : String) : String :=
  ⟨trimSpaceL s.data⟩

/-- Is `pat` a contiguous substring of `l`?  (Go `strings.Contains`.) -/
def containsSubL (pat : List Char) : List Char → Bool
  | [] => pat.isEmpty
  | c :: rest => pat.isPrefixOf (c :: rest) || containsSubL pat rest

/-- Fuel-indexed left-to-right non-overlapping replacement of `pat` by
`rep`; with `fuel ≥ l.length` this is Go `strings.Replace(l, pat, rep, -1)`
for a non-empty `pat` (the only shape the source uses: the literal
placeholder `\x7bversion\x7d`). Structural recursion on the fuel keeps the
function kernel-reducible. -/
def replaceAllFuel (pat rep : List Char) : List Char → Nat → List Char
  | [], _ => []
  | l, 0 => l
  | c :: rest, fuel + 1 =>
    if pat ≠ [] ∧ pat.isPrefixOf (c :: rest) then
      rep ++ replaceAllFuel pat rep ((c :: rest).drop pat.length) fuel
    else
      c :: replaceAllFuel pat rep rest fuel

/-- `strings.ReplaceAll` on character lists (non-empty pattern). -/
def replaceAllL (pat rep l : List Char) : List Char :=
  replaceAllFuel pat rep l l.length

/-- Go `strings.ReplaceAll s pat rep` (argument order of the Go call
`strings.ReplaceAll(s, old, new)`). -/
def replaceAll (s pat rep : String) : String :=
  ⟨replaceAllL pat.data rep.data s.data⟩

/-- Go `strings.Split` with separator `"/"` on the character list:
maximal runs between slashes, keeping empty fields. -/
def splitSlashL : List Char → List (List Char)
  | [] => [[]]
  | c :: rest =>
    let r := splitSlashL rest
    if c = '/' then [] :: r
    else
      match r with
      | [] => [[c]]
      | h :: t => (c :: h) :: t

/-- Go `strings.Split(s, "/")`. -/
def stringsSplitSlash (s : String) : List String :=
  (splitSlashL s.data).map String.mk

/- ········································································
   Lemmas about the string helpers
   ········································································ -/

theorem dropWhile_head_not {p : Char → Bool} :
    ∀ {l c cs}, List.dropWhile p l = c :: cs → p c = false := by
  intro l
  induction l with
  | nil => intro c cs h; simp [List.dropWhile] at h
  | cons a as ih =>
    intro c cs h
    by_cases hp : p a
    · rw [List.dropWhile_cons_of_pos hp] at h
      exact ih h
    · rw [List.dropWhile_cons_of_neg hp] at h
      cases h
      exact eq_false_of_ne_true hp

theorem mem_takeWhile_space {p : Char → Bool} :
    ∀ {l : List Char} {c}, c ∈ List.takeWhile p l → p c = true := by
  intro l
  induction l with
  | nil => intro c h; simp [List.takeWhile] at h
  | cons a as ih =>
    intro c h
    by_cases hp : p a
    · rw [List.takeWhile_cons_of_pos hp] at h
      rcases List.mem_cons.mp h with rfl | h
      · exact hp
      · exact ih h
    · rw [List.takeWhile_cons_of_neg hp] at h
      simp at h

theorem trimSpace_decomp (l : List Char) :
    l.dropWhile goIsSpace =
      trimSpaceL l ++ (List.takeWhile goIsSpace (l.dropWhile goIsSpace).reverse).reverse := by
  conv_lhs =>
    rw [← List.reverse_reverse (l.dropWhile goIsSpace),
      ← List.takeWhile_append_dropWhile (p := goIsSpace)
        (l := (l.dropWhile goIsSpace).reverse)]
  rw [List.reverse_append, trimSpaceL]

/-- The trimmed list sits inside the original between two all-whitespace
stretches, and when non-empty neither of its ends is whitespace: the code
removes exactly the leading and trailing whitespace. -/
theorem trimSpaceL_spec (l : List Char) :
    ∃ pre post,
      l = pre ++ trimSpaceL l ++ post ∧
      (∀ c ∈ pre, goIsSpace c = true) ∧
      (∀ c ∈ post, goIsSpace c = true) ∧
      (∀ c cs, trimSpaceL l = c :: cs → goIsSpace c = false) ∧
      (∀ c cs, (trimSpaceL l).reverse = c :: cs → goIsSpace c = false) := by
  refine ⟨List.takeWhile goIsSpace l,
    (List.takeWhile goIsSpace (l.dropWhile goIsSpace).reverse).reverse, ?_, ?_, ?_, ?_, ?_⟩
  · conv_lhs => rw [← List.takeWhile_append_dropWhile (p := goIsSpace) (l := l)]
    conv_lhs => rw [trimSpace_decomp l]
    rw [List.append_assoc]
  · intro c hc; exact mem_takeWhile_space hc
  · intro c hc
    rw [List.mem_reverse] at hc
    exact mem_takeWhile_space hc
  · intro c cs h
    have hd := trimSpace_decomp l
    rw [h] at hd
    exact dropWhile_head_not (by simpa using hd)
  · intro c cs h
    rw [trimSpaceL, List.reverse_reverse] at h
    exact dropWhile_head_not h

theorem replaceAllFuel_of_not_contains {pat rep : List Char} :
    ∀ (fuel : Nat) (l : List Char), containsSubL pat l = false →
      replaceAllFuel pat rep l fuel = l := by
  intro fuel
  induction fuel with
  | zero => intro l _; cases l <;> rfl
  | succ n ih =>
    intro l hc
    cases l with
    | nil => rfl
    | cons c rest =>
      rw [containsSubL, Bool.or_eq_false_iff] at hc
      rw [replaceAllFuel, if_neg, ih rest hc.2]
      intro h
      rw [hc.1] at h
      exact Bool.false_ne_true h.2

/-- A template with no occurrence of the pattern is left unchanged by
`strings.ReplaceAll`. -/
theorem replaceAll_of_not_contains {s pat rep : String}
    (hc : containsSubL pat.data s.data = false) :
    replaceAll s pat rep = s := by
  rw [replaceAll, replaceAllL, replaceAllFuel_of_not_contains _ _ hc]

/- ········································································
   Shared data model of the providers package
   ········································································ -/

/-- `providers.FetchOpts`. -/
structure FetchOpts where
  All : Bool
  PackagePath : String
  SkipPatchCheck : Bool
  PackageName : String
  Version : String
deriving DecidableEq, Repr

/-- `assets.FilterOpts`: the options the providers hand to
`assets.NewFilter`. -/
structure FilterOpts where
  SkipScoring : Bool
  PackagePath : String
  SkipPathCheck : Bool
  PackageName : String
deriving DecidableEq, Repr

/-- `assets.Asset`: a candidate release artifact. -/
structure Asset where
  Name : String
  URL : String
deriving DecidableEq, Repr

/-- `assets.FilteredAsset`: the asset chosen by the filter, plus extra
download headers (the Go `map[string]string` is modelled as an
association list). -/
structure FilteredAsset where
  Name : String
  URL : String
  ExtraHeaders : List (String × String)
deriving DecidableEq, Repr

/-- `assets.OutFile`: what `ProcessURL` hands back (`Source` stands for
the opaque byte stream). -/
structure OutFile where
  Source : String
  Name : String
  PackagePath : String
deriving DecidableEq, Repr

/-- `providers.File`: the fetch result. -/
structure File where
  Data : String
  Name : String
  Version : String
  PackagePath : String
deriving DecidableEq, Repr

/-- Outcome of running a Go method: normal return value, normal error
return, or a runtime panic (nil-pointer dereference). -/
inductive GoResult (α : Type) where
  | ok (a : α)
  | err (e : String)
  | panics
deriving DecidableEq, Repr

/- ········································································
   generic provider (generic.go)
   ········································································ -/

/-- The `generic` provider struct: `url` is the download-URL template
holding the `\x7bversion\x7d` placeholder, `versionURL` the version-check
endpoint (already validated by `newGeneric`). The `http.Client` is not
stored; each run is parameterized by the outcome of its single GET. -/
structure generic where
  url : String
  versionURL : String
deriving DecidableEq, Repr

/-- `generic.GetLatestVersion`. `bodyResult` stands for the combined
outcome of `client.Get` + `io.ReadAll` on the version-check URL (a
transport or read error, or the response body). `urlParseThenString`
stands for `url.Parse` followed by `.String()` from `net/url`. Returns
the resolved version and the URL to fetch it. -/
def generic.GetLatestVersion (g : generic) (bodyResult : Except String String)
    (urlParseThenString : String → Except String String) :
    Except String (String × String) :=
  match bodyResult with
  | .error e => .error e
  | .ok content =>
    let version := trimSpace content
    let versionURLString := replaceAll g.url "{version}" version
    match urlParseThenString versionURLString with
    | .error e => .error e
    | .ok u => .ok (version, u)

/-- Go `path/filepath.Base` (unix separator, empty volume name). -/
def filepathBase (p : String) : String :=
  if p.data = [] then "."
  else
    let q := (p.data.reverse.dropWhile (· = '/')).reverse
    let r := (q.reverse.takeWhile (· ≠ '/')).reverse
    if r = [] then "/" else ⟨r⟩

/-- `generic.Fetch`: resolve the version, build a single-candidate
filtered asset, delegate the download to `processURL`
(`assets.Filter.ProcessURL`), default the name to the last URL path
element when the filter returned none. -/
def generic.Fetch (g : generic) (opts : FetchOpts)
    (bodyResult : Except String String)
    (urlParseThenString : String → Except String String)
    (processURL : FilterOpts → FilteredAsset → Except String OutFile) :
    Except String File :=
  match g.GetLatestVersion bodyResult urlParseThenString with
  | .error e => .error e
  | .ok (version, versionURL) =>
    let fopts : FilterOpts :=
      { SkipScoring := opts.All, PackagePath := opts.PackagePath,
        SkipPathCheck := opts.SkipPatchCheck, PackageName := opts.PackageName }
    let gf : FilteredAsset := { Name := "", URL := versionURL, ExtraHeaders := [] }
    match processURL fopts gf with
    | .error e => .error e
    | .ok outFile =>
      let name := if outFile.Name = "" then filepathBase gf.URL else outFile.Name
      .ok { Data := outFile.Source, Name := name, Version := version,
            PackagePath := outFile.PackagePath }

/-- `generic.GetID`. -/
def generic.GetID (_ : generic) : String := "generic"

/- ········································································
   gitHub provider (github.go): data model
   ········································································ -/

/-- The `*http.Client` slot handed to the GitHub client constructors:
`nil` (anonymous) or an `oauth2.NewClient` over a static token source. -/
inductive HttpClient where
  | nil
  | oauth2 (accessToken : String)
deriving DecidableEq, Repr

/-- The `*github.Client`: either `github.NewClient(tc)` or
`github.NewEnterpriseClient(baseURL, uploadURL, tc)`. -/
inductive GHClient where
  | standard (tc : HttpClient)
  | enterprise (baseURL uploadURL : String) (tc : HttpClient)
deriving DecidableEq, Repr

/-- The `gitHub` provider struct. -/
structure gitHub where
  url : String
  client : GHClient
  owner : String
  repo : String
  tag : String
  asset : String
  token : String
deriving DecidableEq, Repr

/-- A `*github.ReleaseAsset` (only the fields the code reads, through
the `GetName`/`GetURL` getters). -/
structure ReleaseAsset where
  name : String
  assetURL : String
deriving DecidableEq, Repr

/-- A `*github.RepositoryRelease` (only the fields the code reads). -/
structure RepositoryRelease where
  tagName : String
  htmlURL : String
  assets : List ReleaseAsset
deriving DecidableEq, Repr

/-- A `*github.Response` (only `StatusCode` is read). -/
structure GHResponse where
  statusCode : Nat
deriving DecidableEq, Repr

/-- The environment variables `newGitHub` reads; a missing variable is
the empty string, exactly as `os.Getenv` reports it. -/
structure Env where
  GITHUB_AUTH_TOKEN : String
  GITHUB_TOKEN : String
  GHES_BASE_URL : String
  GHES_UPLOAD_URL : String
  GHES_AUTH_TOKEN : String
deriving DecidableEq, Repr

/-- Behaviour of the external collaborators one `gitHub` method call
consults: the two Releases-API endpoints and the asset filter. Each is a
function of exactly the arguments the Go call passes.
`getLatestRelease` keeps the raw Go triple
`(*RepositoryRelease, *Response, error)` — each pointer may be nil —
because `Fetch` reads `resp.StatusCode` before checking `err`.
`getReleaseByTag` is folded to an `Except` since its `*Response` is
discarded with a blank identifier and go-github pairs a nil error with a
non-nil release there. -/
structure GitHubDeps where
  getReleaseByTag : String → String → String → Except String RepositoryRelease
  getLatestRelease : String → String →
    Option RepositoryRelease × Option GHResponse × Option String
  filterAssets : FilterOpts → String → List Asset → Except String FilteredAsset
  processURL : FilterOpts → FilteredAsset → Except String OutFile

/- ········································································
   gitHub provider: operations
   ········································································ -/

/-- The loop of `getCandidates`, with `candidates` the accumulator: walk
the release assets appending each to `candidates`; on an exact match
with a non-empty `userAsset`, overwrite the accumulation with that
single asset and break. Returns the candidates and the `foundUserAsset`
flag. -/
def getCandidatesLoop (userAsset : String) (candidates : List Asset) :
    List ReleaseAsset → List Asset × Bool
  | [] => (candidates, false)
  | a :: rest =>
    if userAsset ≠ "" ∧ a.name = userAsset then
      ([{ Name := a.name, URL := a.assetURL }], true)
    else
      getCandidatesLoop userAsset
        (candidates ++ [{ Name := a.name, URL := a.assetURL }]) rest

/-- `getCandidates` from github.go. The second component records whether
`log.Warnf("asset %s not found in release", userAsset)` fired; the
function itself never returns an error. -/
def getCandidates (githubAssets : List ReleaseAsset) (userAsset : String) :
    List Asset × Bool :=
  let p := getCandidatesLoop userAsset [] githubAssets
  (p.1, userAsset ≠ "" ∧ p.2 = false)

/-- Lines 53-78 of github.go: everything `gitHub.Fetch` does once a
release is in hand — candidate enumeration, filter construction, header
attachment, download, and assembly of the `File` whose `Version` is the
release tag name. -/
def gitHub.fetchFromRelease (g : gitHub) (opts : FetchOpts) (api : GitHubDeps)
    (release : RepositoryRelease) : GoResult File :=
  let candidates := (getCandidates release.assets g.asset).1
  let fopts : FilterOpts :=
    { SkipScoring := opts.All, PackagePath := opts.PackagePath,
      SkipPathCheck := opts.SkipPatchCheck, PackageName := opts.PackageName }
  match api.filterAssets fopts g.repo candidates with
  | .error e => .err e
  | .ok gf0 =>
    let headers :=
      if g.token ≠ "" then
        [("Accept", "application/octet-stream"), ("Authorization", "token " ++ g.token)]
      else
        [("Accept", "application/octet-stream")]
    let gf : FilteredAsset := { gf0 with ExtraHeaders := headers }
    match api.processURL fopts gf with
    | .error e => .err e
    | .ok outFile =>
      let version := release.tagName
      .ok { Data := outFile.Source, Name := outFile.Name, Version := version,
            PackagePath := outFile.PackagePath }

/-- The tag branch of `gitHub.Fetch` (line 40): fetch the release named
by `g.tag` and continue. -/
def gitHub.fetchByTag (g : gitHub) (opts : FetchOpts) (api : GitHubDeps) :
    GoResult File :=
  match api.getReleaseByTag g.owner g.repo g.tag with
  | .error e => .err e
  | .ok release => g.fetchFromRelease opts api release

/-- The latest branch of `gitHub.Fetch` (lines 43-46): call
`GetLatestRelease`, read `resp.StatusCode` (a nil `resp` panics),
rewrite a 404 into the descriptive no-releases error, then check `err`
and continue (a nil release with a nil error panics at
`release.Assets`). -/
def gitHub.fetchLatest (g : gitHub) (opts : FetchOpts) (api : GitHubDeps) :
    GoResult File :=
  match api.getLatestRelease g.owner g.repo with
  | (releaseOpt, respOpt, errOpt) =>
    match respOpt with
    | none => .panics
    | some resp =>
      let errOpt2 :=
        if resp.statusCode = 404 then
          some ("repository " ++ g.owner ++ "/" ++ g.repo ++ " does not have releases")
        else errOpt
      match errOpt2 with
      | some e => .err e
      | none =>
        match releaseOpt with
        | none => .panics
        | some release => g.fetchFromRelease opts api release

/-- `gitHub.Fetch`. The receiver is threaded explicitly: the returned
`gitHub` is the struct as it stands after the call (line 37 overwrites
`g.tag` with `opts.Version` when the latter is set). -/
def gitHub.Fetch (g : gitHub) (opts : FetchOpts) (api : GitHubDeps) :
    GoResult File × gitHub :=
  if g.tag.length > 0 ∨ opts.Version.length > 0 then
    let g1 := if opts.Version.length > 0 then { g with tag := opts.Version } else g
    (g1.fetchByTag opts api, g1)
  else
    (g.fetchLatest opts api, g)

/-- The release a run of `gitHub.Fetch` resolves, as a function of the
same inputs: the release fetched by the effective tag, or the latest
release. `none` when the lookup does not produce a release. -/
def gitHub.fetchedRelease (g : gitHub) (opts : FetchOpts) (api : GitHubDeps) :
    Option RepositoryRelease :=
  if g.tag.length > 0 ∨ opts.Version.length > 0 then
    let t := if opts.Version.length > 0 then opts.Version else g.tag
    (api.getReleaseByTag g.owner g.repo t).toOption
  else
    (api.getLatestRelease g.owner g.repo).1

/-- `gitHub.GetLatestVersion`: the `*Response` is discarded with a blank
identifier, `err` is checked, then the release getters are read (a nil
release with a nil error panics). -/
def gitHub.GetLatestVersion (g : gitHub) (api : GitHubDeps) :
    GoResult (String × String) :=
  match api.getLatestRelease g.owner g.repo with
  | (_, _, some e) => .err e
  | (some release, _, none) => .ok (release.tagName, release.htmlURL)
  | (none, _, none) => .panics

/-- `gitHub.GetID`. -/
def gitHub.GetID (_ : gitHub) : String := "github"

/-- `newGitHub`: parse owner/repo/tag/asset from the URL path, resolve
the personal token, and build the API client. `newEnterpriseClient`
stands for `github.NewEnterpriseClient`, which may fail; the argument it
receives is the `tc` the code built. `path` is `u.Path` of the input
URL; the error message interpolates `u.String()`, which the model renders
as the path. -/
def newGitHub (path : String) (env : Env)
    (newEnterpriseClient : String → String → HttpClient → Except String GHClient) :
    Except String gitHub :=
  let splitedPath := stringsSplitSlash path
  if splitedPath.length < 3 then
    .error ("error parsing Github URL " ++ path ++ ", cant find owner and repo")
  else
    let owner := splitedPath.getD 1 ""
    let repo := splitedPath.getD 2 ""
    let tagAsset : String × String :=
      if splitedPath.length > 5 ∧ splitedPath.getD 3 "" = "releases" then
        (splitedPath.getD 5 "",
         if splitedPath.length > 6 ∧ splitedPath.getD 4 "" = "download" then
           splitedPath.getD 6 ""
         else "")
      else ("", "")
    let token :=
      if env.GITHUB_AUTH_TOKEN.length = 0 then env.GITHUB_TOKEN
      else env.GITHUB_AUTH_TOKEN
    let gbu := env.GHES_BASE_URL
    let guu := env.GHES_UPLOAD_URL
    let gau := env.GHES_AUTH_TOKEN
    let tc : HttpClient :=
      if gbu.length > 0 ∧ guu.length > 0 ∧ gau.length > 0 then .oauth2 gau
      else if token ≠ "" then .oauth2 token
      else .nil
    if gbu.length > 0 ∧ guu.length > 0 ∧ gau.length > 0 then
      match newEnterpriseClient gbu guu tc with
      | .error e => .error ("error initializing GHES client " ++ e)
      | .ok client =>
        .ok { url := path, client := client, owner := owner, repo := repo,
              tag := tagAsset.1, asset := tagAsset.2, token := token }
    else
      .ok { url := path, client := .standard tc, owner := owner, repo := repo,
            tag := tagAsset.1, asset := tagAsset.2, token := token }

/- ········································································
   Helper lemmas
   ········································································ -/

theorem string_length_zero_iff {s : String} : s.length = 0 ↔ s = "" := by
  cases s with
  | mk l =>
    rw [String.length_mk, List.length_eq_zero, String.ext_iff]

theorem string_length_pos_iff {s : String} : 0 < s.length ↔ s ≠ "" := by
  rw [Nat.pos_iff_ne_zero]
  exact not_congr string_length_zero_iff

/-- Whatever provider `newGitHub` hands back, its identity fields are the
ones parsed from the path segments and the resolved personal token. -/
theorem newGitHub_ok_fields {path : String} {env : Env}
    {nec : String → String → HttpClient → Except String GHClient} {p : gitHub}
    (h : newGitHub path env nec = Except.ok p) :
    p.owner = (stringsSplitSlash path).getD 1 "" ∧
    p.repo = (stringsSplitSlash path).getD 2 "" ∧
    p.tag = (if (stringsSplitSlash path).length > 5 ∧
                (stringsSplitSlash path).getD 3 "" = "releases" then
               (stringsSplitSlash path).getD 5 "" else "") ∧
    p.asset = (if (stringsSplitSlash path).length > 5 ∧
                  (stringsSplitSlash path).getD 3 "" = "releases" then
                 (if (stringsSplitSlash path).length > 6 ∧
                     (stringsSplitSlash path).getD 4 "" = "download" then
                    (stringsSplitSlash path).getD 6 "" else "") else "") ∧
    p.token = (if env.GITHUB_AUTH_TOKEN.length = 0 then env.GITHUB_TOKEN
               else env.GITHUB_AUTH_TOKEN) := by
  by_cases h3 : (stringsSplitSlash path).length < 3
  · simp [newGitHub, h3] at h
  · simp only [newGitHub, if_neg h3] at h
    by_cases hg : env.GHES_BASE_URL.length > 0 ∧ env.GHES_UPLOAD_URL.length > 0 ∧
        env.GHES_AUTH_TOKEN.length > 0
    · simp only [if_pos hg] at h
      cases hne : nec env.GHES_BASE_URL env.GHES_UPLOAD_URL
          (HttpClient.oauth2 env.GHES_AUTH_TOKEN) with
      | error e =>
        rw [hne] at h
        cases h
      | ok c =>
        rw [hne] at h
        rw [Except.ok.injEq] at h
        subst h
        refine ⟨rfl, rfl, ?_, ?_, rfl⟩ <;> split <;> simp_all
    · simp only [if_neg hg] at h
      rw [Except.ok.injEq] at h
      subst h
      refine ⟨rfl, rfl, ?_, ?_, rfl⟩ <;> (dsimp only; split <;> simp_all)

/- ········································································
   Claim theorems
   ········································································ -/

/-- C1: GitHub provider construction parses the input URL path segments:
owner and repo are the 2nd and 3rd segments; with `releases` as the 4th
segment and a 6th segment present, that 6th segment is the tag; if
additionally the 5th segment is `download` and a 7th segment is present,
that 7th segment is the asset name; a plain 3-segment path leaves tag
and asset empty; and a path splitting into fewer than 3 segments makes
construction fail with a parse error. -/
theorem newGitHub_parses_path (path : String) (env : Env)
    (nec : String → String → HttpClient → Except String GHClient) :
    (∀ p, newGitHub path env nec = Except.ok p →
      p.owner = (stringsSplitSlash path).getD 1 "" ∧
      p.repo = (stringsSplitSlash path).getD 2 "" ∧
      ((stringsSplitSlash path).length > 5 →
        (stringsSplitSlash path).getD 3 "" = "releases" →
        p.tag = (stringsSplitSlash path).getD 5 "") ∧
      ((stringsSplitSlash path).length > 6 →
        (stringsSplitSlash path).getD 3 "" = "releases" →
        (stringsSplitSlash path).getD 4 "" = "download" →
        p.asset = (stringsSplitSlash path).getD 6 "") ∧
      ((stringsSplitSlash path).length = 3 → p.tag = "" ∧ p.asset = "")) ∧
    ((stringsSplitSlash path).length < 3 →
      newGitHub path env nec =
        Except.error ("error parsing Github URL " ++ path ++
          ", cant find owner and repo")) := by
  constructor
  · intro p h
    obtain ⟨ho, hr, ht, ha, _⟩ := newGitHub_ok_fields h
    refine ⟨ho, hr, ?_, ?_, ?_⟩
    · intro h5 hrel
      rw [ht, if_pos ⟨h5, hrel⟩]
    · intro h6 hrel hdl
      rw [ha, if_pos ⟨by omega, hrel⟩, if_pos ⟨h6, hdl⟩]
    · intro h3
      constructor
      · rw [ht, if_neg]
        rintro ⟨h5, -⟩
        omega
      · rw [ha, if_neg]
        rintro ⟨h5, -⟩
        omega
  · intro hlt
    simp only [newGitHub, if_pos hlt]

/-- Witness for C1: the spec download-URL example, with an empty
environment. -/
theorem newGitHub_parses_path_witness :
    ∃ p, newGitHub "/owner/repo/releases/download/v1.2.3/tool-linux-amd64"
        ⟨"", "", "", "", ""⟩ (fun _ _ _ => Except.error "unused") = Except.ok p ∧
      p.owner = "owner" ∧ p.repo = "repo" ∧ p.tag = "v1.2.3" ∧
      p.asset = "tool-linux-amd64" := by
  have h : newGitHub "/owner/repo/releases/download/v1.2.3/tool-linux-amd64"
      ⟨"", "", "", "", ""⟩ (fun _ _ _ => Except.error "unused") =
      Except.ok { url := "/owner/repo/releases/download/v1.2.3/tool-linux-amd64",
                  client := .standard .nil, owner := "owner", repo := "repo",
                  tag := "v1.2.3", asset := "tool-linux-amd64", token := "" } := rfl
  obtain ⟨ho, hr, ht, ha, -⟩ :=
    (newGitHub_parses_path "/owner/repo/releases/download/v1.2.3/tool-linux-amd64"
      ⟨"", "", "", "", ""⟩ (fun _ _ _ => Except.error "unused")).1 _ h
  refine ⟨_, h, ?_, ?_, ?_, ?_⟩
  · rw [ho]; decide
  · rw [hr]; decide
  · rw [ht (by decide) (by decide)]; decide
  · rw [ha (by decide) (by decide) (by decide)]; decide

/-- Writing the token resolution of github.go (length test first) as the
precedence the spec states. -/
theorem token_if_eq (env : Env) :
    (if env.GITHUB_AUTH_TOKEN.length = 0 then env.GITHUB_TOKEN
     else env.GITHUB_AUTH_TOKEN) =
    (if env.GITHUB_AUTH_TOKEN ≠ "" then env.GITHUB_AUTH_TOKEN
     else env.GITHUB_TOKEN) := by
  by_cases ha : env.GITHUB_AUTH_TOKEN = ""
  · rw [if_pos (string_length_zero_iff.mpr ha), if_neg (by simp [ha])]
  · rw [if_neg (fun hz => ha (string_length_zero_iff.mp hz)), if_pos ha]

/-- With the GHES triple set and a parseable path, `newGitHub` is the
enterprise-constructor call over the OAuth2 client holding
GHES_AUTH_TOKEN, its error wrapped, its client stored. -/
theorem newGitHub_ghes_eq {path : String} {env : Env}
    {nec : String → String → HttpClient → Except String GHClient}
    (hlen : ¬ (stringsSplitSlash path).length < 3)
    (hg : env.GHES_BASE_URL.length > 0 ∧ env.GHES_UPLOAD_URL.length > 0 ∧
      env.GHES_AUTH_TOKEN.length > 0) :
    newGitHub path env nec =
      (match nec env.GHES_BASE_URL env.GHES_UPLOAD_URL
          (HttpClient.oauth2 env.GHES_AUTH_TOKEN) with
       | .error e => .error ("error initializing GHES client " ++ e)
       | .ok client =>
         .ok { url := path, client := client,
               owner := (stringsSplitSlash path).getD 1 "",
               repo := (stringsSplitSlash path).getD 2 "",
               tag := (if (stringsSplitSlash path).length > 5 ∧
                          (stringsSplitSlash path).getD 3 "" = "releases" then
                         ((stringsSplitSlash path).getD 5 "",
                          if (stringsSplitSlash path).length > 6 ∧
                             (stringsSplitSlash path).getD 4 "" = "download" then
                            (stringsSplitSlash path).getD 6 ""
                          else "")
                       else ("", "")).1,
               asset := (if (stringsSplitSlash path).length > 5 ∧
                            (stringsSplitSlash path).getD 3 "" = "releases" then
                           ((stringsSplitSlash path).getD 5 "",
                            if (stringsSplitSlash path).length > 6 ∧
                               (stringsSplitSlash path).getD 4 "" = "download" then
                              (stringsSplitSlash path).getD 6 ""
                            else "")
                         else ("", "")).2,
               token := if env.GITHUB_AUTH_TOKEN.length = 0 then env.GITHUB_TOKEN
                        else env.GITHUB_AUTH_TOKEN }) := by
  simp only [newGitHub, if_neg hlen, if_pos hg]

/-- C8: when GHES_BASE_URL, GHES_UPLOAD_URL and GHES_AUTH_TOKEN are all
set, the enterprise API client is built over an OAuth2 client
authenticated with GHES_AUTH_TOKEN; enterprise construction failure
fails provider creation; on success the provider stores that client
while its `token` field still holds the personal token resolved from
GITHUB_AUTH_TOKEN / GITHUB_TOKEN. -/
theorem newGitHub_ghes_client (path : String) (env : Env)
    (nec : String → String → HttpClient → Except String GHClient)
    (hb : env.GHES_BASE_URL ≠ "") (hu : env.GHES_UPLOAD_URL ≠ "")
    (ha : env.GHES_AUTH_TOKEN ≠ "")
    (hlen : ¬ (stringsSplitSlash path).length < 3) :
    (∀ e, nec env.GHES_BASE_URL env.GHES_UPLOAD_URL
        (HttpClient.oauth2 env.GHES_AUTH_TOKEN) = Except.error e →
      newGitHub path env nec =
        Except.error ("error initializing GHES client " ++ e)) ∧
    (∀ c, nec env.GHES_BASE_URL env.GHES_UPLOAD_URL
        (HttpClient.oauth2 env.GHES_AUTH_TOKEN) = Except.ok c →
      ∃ p, newGitHub path env nec = Except.ok p ∧ p.client = c ∧
        p.token = (if env.GITHUB_AUTH_TOKEN ≠ "" then env.GITHUB_AUTH_TOKEN
                   else env.GITHUB_TOKEN)) := by
  have hg : env.GHES_BASE_URL.length > 0 ∧ env.GHES_UPLOAD_URL.length > 0 ∧
      env.GHES_AUTH_TOKEN.length > 0 :=
    ⟨string_length_pos_iff.mpr hb, string_length_pos_iff.mpr hu,
     string_length_pos_iff.mpr ha⟩
  constructor
  · intro e he
    rw [newGitHub_ghes_eq hlen hg, he]
  · intro c hc
    rw [newGitHub_ghes_eq hlen hg, hc]
    exact ⟨_, rfl, rfl, token_if_eq env⟩

/-- Witness for C8: GHES triple set, personal tokens A/B; the enterprise
constructor receives the GHES token, and the stored token is A. -/
theorem newGitHub_ghes_client_witness :
    ∃ p, newGitHub "/owner/repo" ⟨"A", "B", "https://ghe/api", "https://ghe/up", "E"⟩
        (fun b u tc => Except.ok (GHClient.enterprise b u tc)) = Except.ok p ∧
      p.client = GHClient.enterprise "https://ghe/api" "https://ghe/up"
        (HttpClient.oauth2 "E") ∧
      p.token = "A" := by
  obtain ⟨p, hp, hcl, htok⟩ :=
    (newGitHub_ghes_client "/owner/repo" ⟨"A", "B", "https://ghe/api", "https://ghe/up", "E"⟩
        (fun b u tc => Except.ok (GHClient.enterprise b u tc))
        (by decide) (by decide) (by decide) (by decide)).2
      (GHClient.enterprise "https://ghe/api" "https://ghe/up" (HttpClient.oauth2 "E")) rfl
  exact ⟨p, hp, hcl, by rw [htok]; decide⟩

/-- C6: the resolved personal token is `GITHUB_AUTH_TOKEN` when that
variable is non-empty, otherwise `GITHUB_TOKEN` (both empty leaves the
token empty, i.e. unauthenticated). -/
theorem newGitHub_token_precedence (path : String) (env : Env)
    (nec : String → String → HttpClient → Except String GHClient) (p : gitHub)
    (h : newGitHub path env nec = Except.ok p) :
    p.token = (if env.GITHUB_AUTH_TOKEN ≠ "" then env.GITHUB_AUTH_TOKEN
               else env.GITHUB_TOKEN) := by
  rw [(newGitHub_ok_fields h).2.2.2.2]
  by_cases ha : env.GITHUB_AUTH_TOKEN = ""
  · rw [if_pos (string_length_zero_iff.mpr ha), if_neg (by simp [ha])]
  · rw [if_neg (fun hz => ha (string_length_zero_iff.mp hz)), if_pos ha]

/-- Witness for C6: with GITHUB_AUTH_TOKEN=A and GITHUB_TOKEN=B the
resolved token is A. -/
theorem newGitHub_token_precedence_witness :
    ∃ p, newGitHub "/owner/repo" ⟨"A", "B", "", "", ""⟩
        (fun _ _ _ => Except.error "unused") = Except.ok p ∧ p.token = "A" := by
  have h : newGitHub "/owner/repo" ⟨"A", "B", "", "", ""⟩
      (fun _ _ _ => Except.error "unused") =
      Except.ok { url := "/owner/repo", client := .standard (.oauth2 "A"),
                  owner := "owner", repo := "repo", tag := "", asset := "",
                  token := "A" } := rfl
  have ht := newGitHub_token_precedence _ _ _ _ h
  exact ⟨_, h, by rw [ht]; decide⟩

/-- C2: for every version-check response body, Generic.GetLatestVersion
resolves the version to the body with leading and trailing whitespace
removed (the trimmed value sits between two all-whitespace stretches of
the body, so internal whitespace is preserved), and returns as download
URL the template with every occurrence of the placeholder replaced by
that version; a template with no occurrence is returned unchanged. The
hypothesis states that the net/url Parse-then-String round trip acts as
the identity on the substituted URL, which holds for well-formed URL
strings. -/
theorem generic_getLatestVersion_trim_substitute (g : generic) (body : String)
    (up : String → Except String String)
    (hrt : up (replaceAll g.url "{version}" (trimSpace body)) =
      Except.ok (replaceAll g.url "{version}" (trimSpace body))) :
    g.GetLatestVersion (Except.ok body) up =
      Except.ok (trimSpace body, replaceAll g.url "{version}" (trimSpace body)) ∧
    (∃ pre post,
      body.data = pre ++ (trimSpace body).data ++ post ∧
      (∀ c ∈ pre, goIsSpace c = true) ∧
      (∀ c ∈ post, goIsSpace c = true) ∧
      (∀ c cs, (trimSpace body).data = c :: cs → goIsSpace c = false) ∧
      (∀ c cs, (trimSpace body).data.reverse = c :: cs → goIsSpace c = false)) ∧
    (containsSubL "{version}".data g.url.data = false →
      replaceAll g.url "{version}" (trimSpace body) = g.url) := by
  refine ⟨?_, ?_, ?_⟩
  · simp only [generic.GetLatestVersion]
    rw [hrt]
  · exact trimSpaceL_spec body.data
  · intro hc
    exact replaceAll_of_not_contains hc

/-- Witness for C2 at a template with two placeholder occurrences and a
body with surrounding whitespace. -/
theorem generic_getLatestVersion_trim_substitute_witness :
    generic.GetLatestVersion ⟨"https://x/{version}/bin-{version}", "https://x/ver"⟩
      (Except.ok "  v1.2.3\n") (fun s => Except.ok s) =
    Except.ok ("v1.2.3", "https://x/v1.2.3/bin-v1.2.3") := by
  have h := (generic_getLatestVersion_trim_substitute
    ⟨"https://x/{version}/bin-{version}", "https://x/ver"⟩ "  v1.2.3\n"
    (fun s => Except.ok s) rfl).1
  exact h.trans (by rfl)

theorem getCandidatesLoop_found {userAsset : String} (hne : userAsset ≠ "") :
    ∀ (l : List ReleaseAsset) (acc : List Asset) (a : ReleaseAsset),
      l.find? (fun x => x.name == userAsset) = some a →
      getCandidatesLoop userAsset acc l =
        ([{ Name := a.name, URL := a.assetURL }], true) := by
  intro l
  induction l with
  | nil => intro acc a h; simp at h
  | cons x rest ih =>
    intro acc a h
    by_cases hx : x.name = userAsset
    · rw [List.find?_cons_of_pos _ (by simp [hx])] at h
      injection h with h
      subst h
      simp only [getCandidatesLoop]
      rw [if_pos ⟨hne, hx⟩]
    · rw [List.find?_cons_of_neg _ (by simp [hx])] at h
      simp only [getCandidatesLoop]
      rw [if_neg (fun hcon => hx hcon.2)]
      exact ih _ a h

theorem getCandidatesLoop_no_match {userAsset : String} :
    ∀ (l : List ReleaseAsset) (acc : List Asset),
      (∀ a ∈ l, ¬ (userAsset ≠ "" ∧ a.name = userAsset)) →
      getCandidatesLoop userAsset acc l =
        (acc ++ l.map (fun a => { Name := a.name, URL := a.assetURL }), false) := by
  intro l
  induction l with
  | nil => intro acc _; simp [getCandidatesLoop]
  | cons x rest ih =>
    intro acc h
    simp only [getCandidatesLoop]
    rw [if_neg (h x (List.mem_cons_self x rest))]
    rw [ih _ (fun a ha => h a (List.mem_cons_of_mem x ha))]
    simp

/-- C3: with a non-empty requested asset name matching some asset, the
candidate set is exactly the singleton holding the first such asset and
no warning fires; with a non-empty name matching no asset, the candidate
set is the full list in release order and the warning fires (no error is
possible: the function is total); with no requested name, the candidate
set is the full list. -/
theorem getCandidates_selection (githubAssets : List ReleaseAsset)
    (userAsset : String) :
    (userAsset ≠ "" → ∀ a, githubAssets.find? (fun x => x.name == userAsset) = some a →
      getCandidates githubAssets userAsset =
        ([{ Name := a.name, URL := a.assetURL }], false)) ∧
    (userAsset ≠ "" → (∀ a ∈ githubAssets, a.name ≠ userAsset) →
      getCandidates githubAssets userAsset =
        (githubAssets.map (fun a => { Name := a.name, URL := a.assetURL }), true)) ∧
    (userAsset = "" →
      getCandidates githubAssets userAsset =
        (githubAssets.map (fun a => { Name := a.name, URL := a.assetURL }), false)) := by
  refine ⟨?_, ?_, ?_⟩
  · intro hne a hf
    simp only [getCandidates]
    rw [getCandidatesLoop_found hne _ _ _ hf]
    simp [hne]
  · intro hne hnm
    simp only [getCandidates]
    rw [getCandidatesLoop_no_match _ _ (fun a ha hcon => hnm a ha hcon.2)]
    simp [hne]
  · intro he
    subst he
    simp only [getCandidates]
    rw [getCandidatesLoop_no_match _ _ (fun a _ hcon => hcon.1 rfl)]
    simp

/-- Witness for C3 on the spec example: requesting `a-linux` gives the
singleton without warning; requesting `missing` gives the full list with
the warning. -/
theorem getCandidates_selection_witness :
    getCandidates [⟨"a.tar.gz", "u1"⟩, ⟨"a-linux", "u2"⟩, ⟨"a-darwin", "u3"⟩]
        "a-linux" = ([⟨"a-linux", "u2"⟩], false) ∧
    getCandidates [⟨"a.tar.gz", "u1"⟩, ⟨"a-linux", "u2"⟩, ⟨"a-darwin", "u3"⟩]
        "missing" =
      ([⟨"a.tar.gz", "u1"⟩, ⟨"a-linux", "u2"⟩, ⟨"a-darwin", "u3"⟩], true) := by
  constructor
  · exact (getCandidates_selection _ _).1 (by decide) ⟨"a-linux", "u2"⟩ (by decide)
  · exact (getCandidates_selection _ _).2.1 (by decide) (by decide)

/- Branch analysis of gitHub.Fetch, shared by the Fetch theorems. -/

theorem fetch_branch_latest {g : gitHub} {opts : FetchOpts} (api : GitHubDeps)
    (htag : g.tag = "") (hver : opts.Version = "") :
    gitHub.Fetch g opts api = (g.fetchLatest opts api, g) := by
  simp only [gitHub.Fetch]
  rw [if_neg]
  rintro (hc | hc)
  · rw [htag] at hc
    simp at hc
  · rw [hver] at hc
    simp at hc

theorem fetch_branch_version {g : gitHub} {opts : FetchOpts} (api : GitHubDeps)
    (hver : opts.Version ≠ "") :
    gitHub.Fetch g opts api =
      (gitHub.fetchByTag { g with tag := opts.Version } opts api,
       { g with tag := opts.Version }) := by
  have hvp := string_length_pos_iff.mpr hver
  simp only [gitHub.Fetch]
  rw [if_pos (Or.inr hvp), if_pos hvp]

theorem fetch_branch_tag {g : gitHub} {opts : FetchOpts} (api : GitHubDeps)
    (htag : g.tag ≠ "") (hver : opts.Version = "") :
    gitHub.Fetch g opts api = (gitHub.fetchByTag g opts api, g) := by
  simp only [gitHub.Fetch]
  rw [if_pos (Or.inl (string_length_pos_iff.mpr htag)),
    if_neg (by simp [hver])]

/-- C5: a non-empty FetchOpts.Version takes precedence over the
constructed tag, is written into the tag field of the provider where it
persists after the call, and that release is fetched by tag; with
Version empty but a constructed tag present, the release of that tag is
fetched; only with both empty is the latest release fetched. -/
theorem gitHub_fetch_version_precedence (g : gitHub) (opts : FetchOpts)
    (api : GitHubDeps) :
    (opts.Version ≠ "" →
      gitHub.Fetch g opts api =
        (gitHub.fetchByTag { g with tag := opts.Version } opts api,
         { g with tag := opts.Version }) ∧
      (gitHub.Fetch g opts api).2.tag = opts.Version) ∧
    (opts.Version = "" → g.tag ≠ "" →
      gitHub.Fetch g opts api = (gitHub.fetchByTag g opts api, g)) ∧
    (opts.Version = "" → g.tag = "" →
      gitHub.Fetch g opts api = (g.fetchLatest opts api, g)) := by
  refine ⟨?_, ?_, ?_⟩
  · intro hv
    have he := fetch_branch_version (g := g) api hv
    exact ⟨he, by rw [he]⟩
  · intro hv ht
    exact fetch_branch_tag api ht hv
  · intro hv ht
    exact fetch_branch_latest api ht hv

/-- Concrete fixtures for the Fetch witnesses. -/
def releaseW : RepositoryRelease :=
  { tagName := "v2", htmlURL := "https://gh/html",
    assets := [{ name := "tool-linux", assetURL := "https://gh/a1" }] }

def apiW : GitHubDeps :=
  { getReleaseByTag := fun _ _ t =>
      if t = "v2" then Except.ok releaseW else Except.error "not found",
    getLatestRelease := fun _ _ => (some releaseW, some { statusCode := 200 }, none),
    filterAssets := fun _ _ cs =>
      match cs with
      | [] => Except.error "no candidates"
      | a :: _ => Except.ok { Name := a.Name, URL := a.URL, ExtraHeaders := [] },
    processURL := fun _ gf =>
      Except.ok { Source := gf.URL, Name := gf.Name, PackagePath := "p" } }

def gW0 : gitHub :=
  { url := "/o/r", client := .standard .nil, owner := "o", repo := "r",
    tag := "", asset := "", token := "" }

def optsW : FetchOpts :=
  { All := false, PackagePath := "", SkipPatchCheck := false, PackageName := "",
    Version := "" }

/-- Witness for C5: a provider constructed with tag v1, fetched with
explicit Version v2, queries the v2 release and leaves tag = v2 on the
struct. -/
theorem gitHub_fetch_version_precedence_witness :
    gitHub.Fetch { gW0 with tag := "v1" } { optsW with Version := "v2" } apiW =
      (gitHub.fetchByTag { gW0 with tag := "v2" } { optsW with Version := "v2" } apiW,
       { gW0 with tag := "v2" }) ∧
    (gitHub.Fetch { gW0 with tag := "v1" } { optsW with Version := "v2" } apiW).2.tag
      = "v2" :=
  (gitHub_fetch_version_precedence { gW0 with tag := "v1" }
    { optsW with Version := "v2" } apiW).1 (by decide)

/-- C4: on the latest-release path an HTTP 404 from the Releases API
makes Fetch fail with the descriptive error naming owner and repo,
replacing whatever error the API call reported. -/
theorem gitHub_fetch_latest_404 (g : gitHub) (opts : FetchOpts) (api : GitHubDeps)
    (releaseOpt : Option RepositoryRelease) (resp : GHResponse)
    (errOpt : Option String)
    (htag : g.tag = "") (hver : opts.Version = "")
    (hapi : api.getLatestRelease g.owner g.repo = (releaseOpt, some resp, errOpt))
    (h404 : resp.statusCode = 404) :
    gitHub.Fetch g opts api =
      (.err ("repository " ++ g.owner ++ "/" ++ g.repo ++ " does not have releases"),
       g) := by
  rw [fetch_branch_latest api htag hver]
  simp [gitHub.fetchLatest, hapi, h404]

/-- Witness for C4: owner `o`, repo `r`, API answering 404 with a
generic error; the result is the descriptive message. -/
theorem gitHub_fetch_latest_404_witness :
    gitHub.Fetch gW0 optsW
      { apiW with getLatestRelease :=
          fun _ _ => (none, some { statusCode := 404 }, some "generic 404") } =
      (.err "repository o/r does not have releases", gW0) := by
  have h := gitHub_fetch_latest_404 gW0 optsW
    { apiW with getLatestRelease :=
        fun _ _ => (none, some { statusCode := 404 }, some "generic 404") }
    none { statusCode := 404 } (some "generic 404") rfl rfl rfl rfl
  exact h.trans (by decide)

/-- C10: on the latest-release path, an error outcome carrying a nil
response (e.g. a transport-level failure) makes Fetch dereference the
nil response pointer at `resp.StatusCode` instead of returning the
error. -/
theorem gitHub_fetch_latest_nil_response (g : gitHub) (opts : FetchOpts)
    (api : GitHubDeps) (releaseOpt : Option RepositoryRelease) (e : String)
    (htag : g.tag = "") (hver : opts.Version = "")
    (hapi : api.getLatestRelease g.owner g.repo = (releaseOpt, none, some e)) :
    gitHub.Fetch g opts api = (.panics, g) := by
  rw [fetch_branch_latest api htag hver]
  simp [gitHub.fetchLatest, hapi]

/-- Witness for C10: a transport failure returning (nil, nil, err)
panics instead of surfacing the error. -/
theorem gitHub_fetch_latest_nil_response_witness :
    gitHub.Fetch gW0 optsW
      { apiW with getLatestRelease :=
          fun _ _ => (none, none, some "dial tcp: connection refused") } =
      (.panics, gW0) :=
  gitHub_fetch_latest_nil_response gW0 optsW
    { apiW with getLatestRelease :=
        fun _ _ => (none, none, some "dial tcp: connection refused") }
    none "dial tcp: connection refused" rfl rfl rfl

/-- Whenever the post-release stage succeeds, the File fields come from
the download collaborator and the Version is the release tag name. -/
theorem fetchFromRelease_ok {g : gitHub} {opts : FetchOpts} {api : GitHubDeps}
    {release : RepositoryRelease} {f : File}
    (h : g.fetchFromRelease opts api release = .ok f) :
    f.Version = release.tagName ∧
    ∃ gf out, api.processURL
        { SkipScoring := opts.All, PackagePath := opts.PackagePath,
          SkipPathCheck := opts.SkipPatchCheck, PackageName := opts.PackageName }
        gf = Except.ok out ∧
      f.Name = out.Name ∧ f.Data = out.Source ∧ f.PackagePath = out.PackagePath := by
  simp only [gitHub.fetchFromRelease] at h
  split at h
  · cases h
  · split at h
    · cases h
    · rename_i out hpu
      rw [GoResult.ok.injEq] at h
      subst h
      exact ⟨rfl, _, out, hpu, rfl, rfl, rfl⟩

/-- Whenever gitHub.Fetch succeeds, the release it resolved exists, the
File Version is the tag name of that release, and the File Name is the name
the download collaborator returned. -/
theorem fetch_ok_release {g g2 : gitHub} {opts : FetchOpts} {api : GitHubDeps}
    {f : File} (h : gitHub.Fetch g opts api = (.ok f, g2)) :
    ∃ r, gitHub.fetchedRelease g opts api = some r ∧ f.Version = r.tagName ∧
      ∃ gf out, api.processURL
          { SkipScoring := opts.All, PackagePath := opts.PackagePath,
            SkipPathCheck := opts.SkipPatchCheck, PackageName := opts.PackageName }
          gf = Except.ok out ∧ f.Name = out.Name := by
  by_cases hv : opts.Version = ""
  · by_cases ht : g.tag = ""
    · rw [fetch_branch_latest api ht hv, Prod.mk.injEq] at h
      obtain ⟨h1, -⟩ := h
      have hcond : ¬ (g.tag.length > 0 ∨ opts.Version.length > 0) := by
        simp [ht, hv]
      rcases htr : api.getLatestRelease g.owner g.repo with ⟨releaseOpt, respOpt, errOpt⟩
      simp only [gitHub.fetchLatest, htr] at h1
      simp only [gitHub.fetchedRelease, if_neg hcond, htr]
      cases respOpt with
      | none => simp at h1
      | some resp =>
        dsimp only at h1
        by_cases h404 : resp.statusCode = 404
        · rw [if_pos h404] at h1
          simp at h1
        · rw [if_neg h404] at h1
          cases errOpt with
          | some e => simp at h1
          | none =>
            cases releaseOpt with
            | none => simp at h1
            | some r =>
              simp only [] at h1
              obtain ⟨hver, gf, out, hpu, hname, -, -⟩ := fetchFromRelease_ok h1
              exact ⟨r, rfl, hver, gf, out, hpu, hname⟩
    · rw [fetch_branch_tag api ht hv, Prod.mk.injEq] at h
      obtain ⟨h1, -⟩ := h
      simp only [gitHub.fetchByTag] at h1
      cases hbt : api.getReleaseByTag g.owner g.repo g.tag with
      | error e => simp [hbt] at h1
      | ok r =>
        simp only [hbt] at h1
        obtain ⟨hver, gf, out, hpu, hname, -, -⟩ := fetchFromRelease_ok h1
        refine ⟨r, ?_, hver, gf, out, hpu, hname⟩
        simp only [gitHub.fetchedRelease,
          if_pos (Or.inl (string_length_pos_iff.mpr ht)),
          if_neg (show ¬ opts.Version.length > 0 by simp [hv]), hbt]
        rfl
  · rw [fetch_branch_version api hv, Prod.mk.injEq] at h
    obtain ⟨h1, -⟩ := h
    have hvp := string_length_pos_iff.mpr hv
    simp only [gitHub.fetchByTag] at h1
    cases hbt : api.getReleaseByTag g.owner g.repo opts.Version with
    | error e => simp [hbt] at h1
    | ok r =>
      simp only [hbt] at h1
      obtain ⟨hver, gf, out, hpu, hname, -, -⟩ := fetchFromRelease_ok h1
      refine ⟨r, ?_, hver, gf, out, hpu, hname⟩
      simp only [gitHub.fetchedRelease, if_pos (Or.inr hvp), if_pos hvp, hbt]
      rfl

/-- C7: every successful GitHub Fetch returns a File whose Version is
the tag name of the fetched release — never the filename of the selected asset,
which is carried in the Name field as the download collaborator returned
it. -/
theorem gitHub_fetch_version_is_tag (g : gitHub) (opts : FetchOpts)
    (api : GitHubDeps) (f : File) (g2 : gitHub)
    (h : gitHub.Fetch g opts api = (.ok f, g2)) :
    ∃ r, gitHub.fetchedRelease g opts api = some r ∧ f.Version = r.tagName ∧
      ∃ gf out, api.processURL
          { SkipScoring := opts.All, PackagePath := opts.PackagePath,
            SkipPathCheck := opts.SkipPatchCheck, PackageName := opts.PackageName }
          gf = Except.ok out ∧ f.Name = out.Name :=
  fetch_ok_release h

/-- Witness for C7: fetching the v2 release yields Version = v2 (the tag
name) while Name carries the asset filename. -/
theorem gitHub_fetch_version_is_tag_witness :
    ∃ r, gitHub.fetchedRelease { gW0 with tag := "v2" } optsW apiW = some r ∧
      (File.mk "https://gh/a1" "tool-linux" "v2" "p").Version = r.tagName ∧
      ∃ gf out, apiW.processURL
          { SkipScoring := optsW.All, PackagePath := optsW.PackagePath,
            SkipPathCheck := optsW.SkipPatchCheck, PackageName := optsW.PackageName }
          gf = Except.ok out ∧
        (File.mk "https://gh/a1" "tool-linux" "v2" "p").Name = out.Name :=
  gitHub_fetch_version_is_tag { gW0 with tag := "v2" } optsW apiW
    (File.mk "https://gh/a1" "tool-linux" "v2" "p") { gW0 with tag := "v2" } (by rfl)

theorem generic_getLatestVersion_ok_version {g : generic} {body : String}
    {up : String → Except String String} {v u : String}
    (h : g.GetLatestVersion (Except.ok body) up = Except.ok (v, u)) :
    v = trimSpace body := by
  simp only [generic.GetLatestVersion] at h
  cases hup : up (replaceAll g.url "{version}" (trimSpace body)) with
  | error e => simp [hup] at h
  | ok s =>
    simp only [hup] at h
    rw [Except.ok.injEq, Prod.mk.injEq] at h
    exact h.1.symm

theorem generic_fetch_ok_version {g : generic} {opts : FetchOpts} {body : String}
    {up : String → Except String String}
    {pu : FilterOpts → FilteredAsset → Except String OutFile} {f : File}
    (h : g.Fetch opts (Except.ok body) up pu = Except.ok f) :
    f.Version = trimSpace body := by
  simp only [generic.Fetch] at h
  cases hglv : g.GetLatestVersion (Except.ok body) up with
  | error e => simp [hglv] at h
  | ok p =>
    obtain ⟨v0, u0⟩ := p
    simp only [hglv] at h
    split at h
    · simp at h
    · rw [Except.ok.injEq] at h
      subst h
      exact generic_getLatestVersion_ok_version hglv

theorem gitHub_getLatestVersion_ok {g : gitHub} {api : GitHubDeps} {t hu : String}
    (h : g.GetLatestVersion api = GoResult.ok (t, hu)) :
    ∃ r, (api.getLatestRelease g.owner g.repo).1 = some r ∧ t = r.tagName := by
  rcases htr : api.getLatestRelease g.owner g.repo with ⟨releaseOpt, respOpt, errOpt⟩
  simp only [gitHub.GetLatestVersion, htr] at h
  cases errOpt with
  | some e => simp at h
  | none =>
    cases releaseOpt with
    | none => simp at h
    | some r =>
      dsimp only at h
      rw [GoResult.ok.injEq, Prod.mk.injEq] at h
      exact ⟨r, rfl, h.1.symm⟩

/-- C9 (amended): when a version-resolving provider operation succeeds,
the resolved version is non-empty provided its source value is
non-empty — the whitespace-trimmed response body for the generic
provider, the tag name of the fetched release for the GitHub provider. (The
operations do not enforce non-emptiness themselves: see the
counterexample theorem for the claim as stated.) -/
theorem resolved_version_nonempty (g : generic) (gh : gitHub) (opts : FetchOpts)
    (body : String) (up : String → Except String String)
    (pu : FilterOpts → FilteredAsset → Except String OutFile) (api : GitHubDeps) :
    (∀ v u, g.GetLatestVersion (Except.ok body) up = Except.ok (v, u) →
      trimSpace body ≠ "" → v ≠ "") ∧
    (∀ f, g.Fetch opts (Except.ok body) up pu = Except.ok f →
      trimSpace body ≠ "" → f.Version ≠ "") ∧
    (∀ t hu, gh.GetLatestVersion api = GoResult.ok (t, hu) →
      (∀ r, (api.getLatestRelease gh.owner gh.repo).1 = some r → r.tagName ≠ "") →
      t ≠ "") ∧
    (∀ f g2, gitHub.Fetch gh opts api = (GoResult.ok f, g2) →
      (∀ r, gitHub.fetchedRelease gh opts api = some r → r.tagName ≠ "") →
      f.Version ≠ "") := by
  refine ⟨?_, ?_, ?_, ?_⟩
  · intro v u h hne
    rw [generic_getLatestVersion_ok_version h]
    exact hne
  · intro f h hne
    rw [generic_fetch_ok_version h]
    exact hne
  · intro t hu h hr
    obtain ⟨r, hrel, htg⟩ := gitHub_getLatestVersion_ok h
    rw [htg]
    exact hr r hrel
  · intro f g2 h hr
    obtain ⟨r, hrel, hver, -⟩ := fetch_ok_release h
    rw [hver]
    exact hr r hrel

/-- C9 as stated is false on the code: an all-whitespace version-check
body makes Generic.GetLatestVersion succeed with an empty resolved
version. -/
theorem resolved_version_empty_on_success :
    ¬ (∀ v u, generic.GetLatestVersion ⟨"https://x/dl", "https://x/ver"⟩
        (Except.ok "  \n") (fun s => Except.ok s) = Except.ok (v, u) →
        v ≠ "") := by
  intro hall
  exact hall "" "https://x/dl" (by rfl) rfl

/-- Witness for the amended C9: a body trimming to `v1.2.3` resolves
successfully and the version is non-empty. -/
theorem resolved_version_nonempty_witness :
    generic.GetLatestVersion ⟨"https://x/{version}", "https://x/ver"⟩
      (Except.ok "  v1.2.3\n") (fun s => Except.ok s) =
      Except.ok ("v1.2.3", "https://x/v1.2.3") ∧ ("v1.2.3" : String) ≠ "" := by
  refine ⟨by rfl, ?_⟩
  exact (resolved_version_nonempty ⟨"https://x/{version}", "https://x/ver"⟩ gW0 optsW
    "  v1.2.3\n" (fun s => Except.ok s) (fun _ _ => Except.error "unused") apiW).1
    "v1.2.3" "https://x/v1.2.3" (by rfl) (by decide)
